import Mathlib

/-!
Verification of the `nexus-input-transformation` repository: a shallow
embedding of the schema-tree reducer (`input-type-traversal`) and of the
transform compiler (`input-transformer.ts`), together with theorems settling
the frozen claims about them.

JavaScript runtime values are embedded as the inductive `Value`; the JS
`undefined` that signals "no result" in the traversal is embedded as
`Option.none`, and a JS function that may throw is embedded as a function
into `Except String`.
-/

namespace NexusInput

/-- A JavaScript runtime value as the repository manipulates them: the
compiled middleware transforms bags (`obj`) whose entries hold scalars,
arrays, nested bags, `null`, or `undefined`.  Numbers are embedded as `Int`
(no claim exercises fractional values). -/
inductive Value : Type where
  | undefined : Value
  | null : Value
  | bool : Bool → Value
  | num : Int → Value
  | str : String → Value
  | arr : List Value → Value
  | obj : List (String × Value) → Value

/-- JavaScript truthiness, as tested by `if (!extensions)` in
`buildResolverMiddleware`'s reducer: `undefined`, `null`, `false`, `0` and
the empty string are falsy; every array and object is truthy. -/
def truthy : Value → Bool
  | .undefined => false
  | .null => false
  | .bool b => b
  | .num n => n != 0
  | .str s => s != ""
  | .arr _ => true
  | .obj _ => true

/-- An `extensions` record: string-keyed metadata on a schema node

(`GraphQLArgumentConfig.extensions`, `GraphQLInputField.extensions`,
type-level `extensions`). -/
abbrev Exts := List (String × Value)

/-- A nexus wrapping kind, `core.NexusWrapKind`.  The source also has a
`"Null"` kind; only `List` and `NonNull` can occur in the wrapping sequence
produced by unwrapping a built GraphQL input type, and only membership of
`List` is ever tested. -/
inductive WrapKind : Type where
  | List : WrapKind
  | NonNull : WrapKind
deriving DecidableEq

mutual

/-- A GraphQL input type as the traversal consumes it: a named scalar type
(`GraphQLScalarType`, carrying its `extensions`), a named input object type
(`GraphQLInputObjectType`, carrying `extensions` and its fields), or a
wrapper (`GraphQLList` / `GraphQLNonNull`) around another input type. -/
inductive InpType : Type where
  | scalar : String → Exts → InpType
  | obj : String → Exts → FieldList → InpType
  | listW : InpType → InpType
  | nonNull : InpType → InpType

/-- The field record of a `GraphQLInputObjectType` (`argType.getFields()`):
an ordered list of (field name, field `extensions`, field type), each entry
a `GraphQLInputField`. -/
inductive FieldList : Type where
  | nil : FieldList
  | cons : String → Exts → InpType → FieldList → FieldList

end

/-- `GraphQLArgumentConfig`: the definition of one argument, with an
optional `extensions` record (`extensions?:` in the config type, so it may
be `undefined`, embedded as `none`). -/
structure ArgDef : Type where
  type : InpType
  extensions : Option Exts

/-- The source's `ArgType` union (`GraphQLInputType | GraphQLInputField |
GraphQLNamedType`): either a bare input type or an input field (which
carries its own `extensions` besides its type). -/
inductive ArgType : Type where
  | ofType : InpType → ArgType
  | ofField : Exts → InpType → ArgType

/-- The source's `Node` union: everything the reducer can be handed as
`currentNode` — an argument definition, a type or field, or the raw
`Record<string, ArgDef>` at the root of the walk. -/
inductive Node : Type where
  | ofArgDef : ArgDef → Node
  | ofArgType : ArgType → Node
  | ofRecord : List (String × ArgDef) → Node

/-- The `childValues` parameter of a reducer invocation: either the
`initialNodeValue` passed verbatim (at non-record nodes), or the record of
child results whose `undefined` entries were filtered out. -/
inductive ChildVals (ν τ : Type) : Type where
  | init : ν → ChildVals ν τ
  | record : List (String × τ) → ChildVals ν τ

/-- The `NodeCtx` of the traversal: current key (absent at the root), the
wrapper-kind sequence accumulated while unwrapping the current node
(outermost first), and the caller's `initialNodeValue`. -/
structure NodeCtx (ν : Type) : Type where
  key : Option String
  wrapping : List WrapKind
  initialNodeValue : ν

/-- The `Reducer<T>` callback type.  A JS return value of type
`T | undefined` is embedded as `Option τ` (`none` = `undefined`); the
`initialNodeValue` may be any JS value (the transform compiler passes
`null`), embedded by the extra parameter `ν`. -/
abbrev Reducer (ν τ : Type) : Type :=
  ChildVals ν τ → Node → NodeCtx ν → Option τ

/-- `unwrapType` on a bare input type: peel `GraphQLList` / `GraphQLNonNull`
layers, returning the terminal named type and the wrapper-kind sequence,
outermost first (the source delegates to `core.unwrapGraphQLDef`). -/
def unwrapInpType : InpType → InpType × List WrapKind
  | .listW t =>
    let u := unwrapInpType t
    (u.1, WrapKind.List :: u.2)
  | .nonNull t =>
    let u := unwrapInpType t
    (u.1, WrapKind.NonNull :: u.2)
  | t => (t, [])

/-- The source's `unwrapType` over the `ArgType` union: a non-type node
(an input field) is unwrapped through its `.type`. -/
def unwrapType : ArgType → InpType × List WrapKind
  | .ofType t => unwrapInpType t
  | .ofField _ t => unwrapInpType t

mutual

/-- Height of an input type, used as the termination measure of the
traversal (structure only; `extensions` contents are irrelevant). -/
def htT : InpType → Nat
  | .scalar _ _ => 0
  | .obj _ _ fl => htF fl + 1
  | .listW t => htT t + 1
  | .nonNull t => htT t + 1

/-- Height of a field list, for the same termination measure. -/
def htF : FieldList → Nat
  | .nil => 0
  | .cons _ _ t rest => max (htT t) (htF rest) + 1

end

/-- Height of an `ArgType` node: the height of its underlying type. -/
def htA : ArgType → Nat
  | .ofType t => htT t
  | .ofField _ t => htT t

/-- Unwrapping does not increase height.  This bound (and its `ArgType`
corollary below) must precede the traversal definitions: their
well-founded recursion is justified by it. -/
theorem htT_unwrap_le : (t : InpType) → htT (unwrapInpType t).1 ≤ htT t
  | .scalar _ _ => by simp [unwrapInpType, htT]
  | .obj _ _ _ => by simp [unwrapInpType, htT]
  | .listW t => by simpa [unwrapInpType, htT] using Nat.le_succ_of_le (htT_unwrap_le t)
  | .nonNull t => by simpa [unwrapInpType, htT] using Nat.le_succ_of_le (htT_unwrap_le t)

theorem htA_unwrap_le (at' : ArgType) : htT (unwrapType at').1 ≤ htA at' := by
  cases at' with
  | ofType t => simpa [unwrapType, htA] using htT_unwrap_le t
  | ofField e t => simpa [unwrapType, htA] using htT_unwrap_le t

mutual

/-- `reduceOverArgDef`: visit the argument definition itself; a defined
result halts, `undefined` falls through to the argument's type. -/
def reduceOverArgDef {ν τ : Type} (reducer : Reducer ν τ) (argDef : ArgDef)
    (ctx : NodeCtx ν) : Option τ :=
  match reducer (.init ctx.initialNodeValue) (.ofArgDef argDef) ctx with
  | some v => some v
  | none => reduceOverArgType reducer (.ofType argDef.type) ctx

/-- `reduceOverArgType`: unwrap the node's type, visit the node itself with
the accumulated wrapper-kind sequence in the context, and on `undefined`
fall through to the terminal named type (the source destructures
`unwrapType` once into `namedType` and `wrapping`). -/
def reduceOverArgType {ν τ : Type} (reducer : Reducer ν τ) (argType : ArgType)
    (ctx : NodeCtx ν) : Option τ :=
  match reducer (.init ctx.initialNodeValue) (.ofArgType argType)
      { ctx with wrapping := (unwrapType argType).2 } with
  | some v => some v
  | none =>
    reduceOverWrappedType reducer (unwrapType argType).1
      { ctx with wrapping := (unwrapType argType).2 }
termination_by 8 * htA argType + 3
decreasing_by have h := htA_unwrap_le argType; omega

/-- `reduceOverWrappedType`: visit the terminal named type; on `undefined`,
descend into an input object type's fields, and give up (`undefined`) on
anything else. -/
def reduceOverWrappedType {ν τ : Type} (reducer : Reducer ν τ) (argType : InpType)
    (ctx : NodeCtx ν) : Option τ :=
  match reducer (.init ctx.initialNodeValue) (.ofArgType (.ofType argType)) ctx with
  | some v => some v
  | none =>
    match argType with
    | .obj name exts fields => reduceOverObjectType reducer name exts fields ctx
    | _ => none
termination_by 8 * htT argType + 2
decreasing_by simp only [htT]; omega

/-- `reduceOverObjectType`: reduce every field of the object type, filter
out `undefined` child results, and visit the object type once more with the
surviving child record. -/
def reduceOverObjectType {ν τ : Type} (reducer : Reducer ν τ) (name : String)
    (exts : Exts) (fields : FieldList) (ctx : NodeCtx ν) : Option τ :=
  let childValues := reduceOverFields reducer ctx fields
  reducer (.record childValues) (.ofArgType (.ofType (.obj name exts fields))) ctx
termination_by 8 * htF fields + 1
decreasing_by omega

/-- The `Object.entries(argType.getFields()).map(...).filter(...)` loop of
`reduceOverObjectType`, fused into one recursion: each field is reduced with
its own key, a fresh wrapper-kind sequence and the same `initialNodeValue`,
and `undefined` results are dropped. -/
def reduceOverFields {ν τ : Type} (reducer : Reducer ν τ) (ctx : NodeCtx ν) :
    FieldList → List (String × τ)
  | .nil => []
  | .cons key exts t rest =>
    match reduceOverArgType reducer (.ofField exts t)
        { key := some key, wrapping := [], initialNodeValue := ctx.initialNodeValue } with
    | some v => (key, v) :: reduceOverFields reducer ctx rest
    | none => reduceOverFields reducer ctx rest
termination_by fields => 8 * htF fields
decreasing_by all_goals (simp only [htA, htF]; omega)

end

/-- `reduceOverArgDefs`: the exported fold.  Reduce every argument
definition (with its key, a fresh wrapping and the `initialNodeValue`),
filter out `undefined` results, then call the reducer once more on the
surviving child record with the raw definition record as current node. -/
def reduceOverArgDefs {ν τ : Type} (reducer : Reducer ν τ)
    (argDefs : List (String × ArgDef)) (initialNodeValue : ν) : Option τ :=
  let childEntries := argDefs.filterMap fun kd =>
    (reduceOverArgDef reducer kd.2
        { key := some kd.1, wrapping := [], initialNodeValue }).map fun v => (kd.1, v)
  reducer (.record childEntries) (.ofRecord argDefs)
    { key := none, wrapping := [], initialNodeValue }

/-! ### The transform compiler (`input-transformer.ts`) -/

/-- An `InputTransform` of the compiled middleware: a JS function on values
that may throw (embedded as `Except String`). -/
abbrev InputTransform : Type := Value → Except String Value

/-- The `InputTransformer` class: an annotation key (`extensionName`), a
config extractor (never invoked by any method of the class itself), and the
caller-supplied transform `(input, config) => output`, which may throw. -/
structure InputTransformer : Type where
  extensionName : String
  extractConfig : Value → Except String Value
  transform : Value → Value → Except String Value

/-- JS property read `carry[key]`: reading a property of `undefined` or
`null` throws a `TypeError`; a missing key on an object (and any key on a
primitive or array, whose own string-keyed properties we do not model)
yields `undefined`. -/
def jsIndex : Value → String → Except String Value
  | .undefined, _ => .error "TypeError: Cannot read properties of undefined"
  | .null, _ => .error "TypeError: Cannot read properties of null"
  | .obj fs, key =>
    match fs.lookup key with
    | some v => .ok v
    | none => .ok .undefined
  | _, _ => .ok .undefined

/-- Replace the entry at `key` in an object's entry list, or append it when
absent — the net effect of the literal `{ ...carry, [key]: v }` on an
object `carry`. -/
def setKey (fs : List (String × Value)) (key : String) (v : Value) :
    List (String × Value) :=
  if fs.any fun p => key == p.1 then
    fs.map fun p => if key == p.1 then (key, v) else p
  else
    fs ++ [(key, v)]

/-- The object literal `{ ...carry, [key]: v }`: spreading an object keeps
its entries (with `key` overwritten in place or appended); spreading a
primitive contributes no entries, so the result is `{ [key]: v }` (the
index-keyed entries a string or array would contribute are not modeled — no
compiled transform is ever applied to one). -/
def jsSpreadSet (carry : Value) (key : String) (v : Value) : Value :=
  match carry with
  | .obj fs => .obj (setKey fs key v)
  | _ => .obj [(key, v)]

/-- One step of the `keyTransformers.reduce` callback in
`composeKeyTransformers`: `{ ...carry, [key]: transform(carry[key]) }`,
with `carry[key]` read first and the transform's throw aborting the step. -/
def composeStep (carry : Value) (kt : String × InputTransform) :
    Except String Value := do
  let cur ← jsIndex carry kt.1
  let v ← kt.2 cur
  pure (jsSpreadSet carry kt.1 v)

/-- `composeKeyTransformers`: fold the key transformers left-to-right over
the argument bag, each step producing a fresh bag; a throw anywhere aborts
the whole reduce. -/
def composeKeyTransformers (keyTransformers : List (String × InputTransform)) :
    InputTransform :=
  fun args => keyTransformers.foldlM composeStep args

/-- `makeTransform`: close the configured transform over one extracted
config. -/
def makeTransform (self : InputTransformer) (config : Value) : InputTransform :=
  fun input => self.transform input config

/-- `makeListTransform`: `(input) => input.map(transform)`.  On an array,
the element transform is applied to every element (a throw aborts the map);
on anything else — including `undefined` or `null` for an absent value —
`.map` is not a function and a `TypeError` is thrown. -/
def makeListTransform (self : InputTransformer) (config : Value) : InputTransform :=
  fun input =>
    match input with
    | .arr xs => (xs.mapM (makeTransform self config)).map Value.arr
    | _ => .error "TypeError: input.map is not a function"

/-- The JS `node.extensions` property of each `Node` shape: `none` embeds
`undefined`.  Argument definitions carry an optional record; fields, scalar
types and input object types always carry one; `GraphQLList` and
`GraphQLNonNull` wrappers have none, and neither does the raw root record
(an argument literally named "extensions" is not modeled). -/
def nodeExtensions : Node → Option Exts
  | .ofArgDef d => d.extensions
  | .ofArgType (.ofField exts _) => some exts
  | .ofArgType (.ofType (.scalar _ exts)) => some exts
  | .ofArgType (.ofType (.obj _ exts _)) => some exts
  | .ofArgType (.ofType (.listW _)) => none
  | .ofArgType (.ofType (.nonNull _)) => none
  | .ofRecord _ => none

/-- `isListType(node)`: true exactly on a `GraphQLList` node. -/
def isListTypeNode : Node → Bool
  | .ofArgType (.ofType (.listW _)) => true
  | _ => false

/-- `hasExtensions`: the node is not a list type and its `extensions`
property is not `undefined`. -/
def hasExtensions (node : Node) : Bool :=
  !isListTypeNode node && (nodeExtensions node).isSome

/-- `getExtensions`: `undefined` unless `hasExtensions`, else the value
stored under this transformer's `extensionName` (which may itself be
absent, i.e. `undefined`). -/
def getExtensions (self : InputTransformer) (node : Node) : Option Value :=
  if !hasExtensions node then none
  else (nodeExtensions node).bind fun exts => exts.lookup self.extensionName

/-- The reducer closure passed to `reduceOverArgDefs` by
`buildResolverMiddleware`: compose any non-empty child record; otherwise
look up this transformer's extensions on the current node (`!extensions`
re-checks JS truthiness), and produce a list or scalar transform according
to whether the accumulated wrapping contains `"List"`. -/
def buildReducer (self : InputTransformer) : Reducer Unit InputTransform :=
  fun childValues currentNode ctx =>
    let childEntries : List (String × InputTransform) :=
      match childValues with
      | .init _ => []
      | .record entries => entries
    if childEntries.length > 0 then
      some (composeKeyTransformers childEntries)
    else
      match getExtensions self currentNode with
      | none => none
      | some extensions =>
        if truthy extensions then
          if ctx.wrapping.contains WrapKind.List then
            some (makeListTransform self extensions)
          else
            some (makeTransform self extensions)
        else none

/-- `buildResolverMiddleware`: one `reduceOverArgDefs` fold with the
reducer above; the `null` initial node value (observationally inert — the
reducer only ever spreads it into `{}`) is embedded as `Unit`. -/
def buildResolverMiddleware (self : InputTransformer)
    (argDefs : List (String × ArgDef)) : Option InputTransform :=
  reduceOverArgDefs (buildReducer self) argDefs ()

/-- Modelled from the spec: `buildArgConstructor` of the plugin layer (file
`input-transformer-plugin`, absent from `src/`, whose callers and docs are
in `src/unnamed/part_001`).  At schema-declaration time it invokes the
config extractor on the options supplied to the field declaration and
stores the extracted configuration in the argument definition's extensions
under the transformer's annotation key; an extractor throw therefore
escapes at declaration time, before any compile. -/
def buildArgConstructor (extensionName : String)
    (extractConfig : Value → Except String Value) (argType : InpType)
    (options : Value) : Except String ArgDef := do
  let config ← extractConfig options
  pure ⟨argType, some [(extensionName, config)]⟩

/-! ### Concrete transformer instances and visitors used to instantiate the
theorems on closed inputs -/

/-- A transformer whose transform replaces the input by the `to` entry of
its configuration (the spec's "replace with constant" example). -/
def replaceWithTransformer : InputTransformer where
  extensionName := "replaceWith"
  extractConfig := fun options => .ok options
  transform := fun _ config =>
    match config with
    | .obj entries => .ok ((entries.lookup "to").getD .undefined)
    | _ => .error "invalid config"

/-- A transformer that doubles numeric input (the spec's "multiply by 2"). -/
def doubleTransformer : InputTransformer where
  extensionName := "double"
  extractConfig := fun options => .ok options
  transform := fun input _ =>
    match input with
    | .num n => .ok (.num (2 * n))
    | _ => .error "TypeError: not a number"

/-- A transformer that returns the constant `7` for every input. -/
def constSevenTransformer : InputTransformer where
  extensionName := "seven"
  extractConfig := fun options => .ok options
  transform := fun _ _ => .ok (.num 7)

/-- A transformer whose transform requires an object-shaped configuration
and throws on any other stored configuration value. -/
def opaqueTransformer : InputTransformer where
  extensionName := "opaque"
  extractConfig := fun options => .ok options
  transform := fun input config =>
    match config with
    | .obj _ => .ok input
    | _ => .error "invalid config"

/-- A transformer that records its input and configuration in a pair. -/
def pairTransformer : InputTransformer where
  extensionName := "pair"
  extractConfig := fun options => .ok options
  transform := fun input config => .ok (.arr [input, config])

/-- A transformer with the identity transform, annotation key `alpha`. -/
def identityTransformer : InputTransformer where
  extensionName := "alpha"
  extractConfig := fun options => .ok options
  transform := fun input _ => .ok input

/-- A visitor that answers the sentinel value `0` at every argument
definition, `7` at every type node, and forwards its first child value at
the record node. -/
def haltingVisitor : Reducer Value Value := fun childValues node _ =>
  match node with
  | .ofRecord _ =>
    match childValues with
    | .record ((_, v) :: _) => some v
    | _ => some (.num 99)
  | .ofArgDef _ => some (.num 0)
  | .ofArgType _ => some (.num 7)

/-- The same visitor, except that it answers `undefined` at argument
definitions. -/
def descendingVisitor : Reducer Value Value := fun childValues node _ =>
  match node with
  | .ofRecord _ =>
    match childValues with
    | .record ((_, v) :: _) => some v
    | _ => some (.num 99)
  | .ofArgDef _ => none
  | .ofArgType _ => some (.num 7)

/-! ### Which positions count as annotated

`buildResolverMiddleware` recognizes an annotation at a node exactly when
the node's `extensions` hold a truthy value under the transformer's
`extensionName` (a configuration produced by a config extractor is a JS
object and hence always truthy). -/

/-- Truthiness of a JS value that may be `undefined` (`!extensions`). -/
def truthyOpt : Option Value → Bool
  | some v => truthy v
  | none => false

/-- Whether an `extensions` record holds a truthy value under key `n`. -/
def truthyLookup (n : String) (exts : Exts) : Bool :=
  truthyOpt (exts.lookup n)

mutual

/-- Whether a type (or anything inside it) carries an annotation under key
`n` that the traversal can discover. -/
def hasAnnType (n : String) : InpType → Bool
  | .scalar _ exts => truthyLookup n exts
  | .obj _ exts fl => truthyLookup n exts || hasAnnFields n fl
  | .listW t => hasAnnType n t
  | .nonNull t => hasAnnType n t

/-- Whether any field of a field list (or anything inside one) carries an
annotation under key `n`. -/
def hasAnnFields (n : String) : FieldList → Bool
  | .nil => false
  | .cons _ exts t rest =>
    truthyLookup n exts || hasAnnType n t || hasAnnFields n rest

end

/-- `hasAnnType` specialized to an already-unwrapped named type: wrapper
nodes themselves never carry extensions. -/
def hasAnnNamed (n : String) : InpType → Bool
  | .scalar _ exts => truthyLookup n exts
  | .obj _ exts fl => truthyLookup n exts || hasAnnFields n fl
  | .listW _ => false
  | .nonNull _ => false

/-- Annotation content of an `ArgType` node: a field contributes its own
extensions besides its type's. -/
def hasAnnArgType (n : String) : ArgType → Bool
  | .ofType t => hasAnnType n t
  | .ofField exts t => truthyLookup n exts || hasAnnType n t

/-- Whether an argument definition (or anything inside it) is annotated. -/
def hasAnnArgDef (n : String) (d : ArgDef) : Bool :=
  truthyOpt (d.extensions.bind fun exts => exts.lookup n) || hasAnnType n d.type

/-- Whether any position of a whole argument-definition tree is annotated
under key `n`. -/
def hasAnnArgDefs (n : String) (argDefs : List (String × ArgDef)) : Bool :=
  argDefs.any fun kd => hasAnnArgDef n kd.2

/-! ### Agreement of trees outside one annotation key

Two trees agree at key `n` when they have the same shape (same fields, same
names, same wrapping) and every node's extensions hold the same value under
`n` — while annotations under every other key may be added, removed or
altered freely. -/

mutual

/-- Same type structure, with equal extensions at key `n` everywhere. -/
inductive AgreeType (n : String) : InpType → InpType → Prop where
  | scalar : ∀ s e₁ e₂, e₁.lookup n = e₂.lookup n →
      AgreeType n (.scalar s e₁) (.scalar s e₂)
  | obj : ∀ s e₁ e₂ f₁ f₂, e₁.lookup n = e₂.lookup n → AgreeFields n f₁ f₂ →
      AgreeType n (.obj s e₁ f₁) (.obj s e₂ f₂)
  | listW : ∀ t₁ t₂, AgreeType n t₁ t₂ → AgreeType n (.listW t₁) (.listW t₂)
  | nonNull : ∀ t₁ t₂, AgreeType n t₁ t₂ →
      AgreeType n (.nonNull t₁) (.nonNull t₂)

/-- Same field lists, with equal extensions at key `n` everywhere. -/
inductive AgreeFields (n : String) : FieldList → FieldList → Prop where
  | nil : AgreeFields n .nil .nil
  | cons : ∀ k e₁ e₂ t₁ t₂ r₁ r₂, e₁.lookup n = e₂.lookup n →
      AgreeType n t₁ t₂ → AgreeFields n r₁ r₂ →
      AgreeFields n (.cons k e₁ t₁ r₁) (.cons k e₂ t₂ r₂)

end

/-- Agreement over the `ArgType` union. -/
def AgreeArgType (n : String) : ArgType → ArgType → Prop
  | .ofType t₁, .ofType t₂ => AgreeType n t₁ t₂
  | .ofField e₁ t₁, .ofField e₂ t₂ =>
    e₁.lookup n = e₂.lookup n ∧ AgreeType n t₁ t₂
  | _, _ => False

/-- Agreement of argument definitions: `getExtensions` observes the same
value (the optional records may differ in presence as long as the lookup at
`n` does not), and the types agree. -/
def AgreeArgDef (n : String) (d₁ d₂ : ArgDef) : Prop :=
  (d₁.extensions.bind fun e => e.lookup n)
      = (d₂.extensions.bind fun e => e.lookup n) ∧
    AgreeType n d₁.type d₂.type

/-- Agreement of whole argument-definition trees: same keys in the same
order, definitions agreeing pointwise. -/
def AgreeArgDefs (n : String) (l₁ l₂ : List (String × ArgDef)) : Prop :=
  List.Forall₂ (fun kd₁ kd₂ => kd₁.1 = kd₂.1 ∧ AgreeArgDef n kd₁.2 kd₂.2) l₁ l₂

theorem hasAnnType_eq_named (n : String) :
    (t : InpType) → hasAnnType n t = hasAnnNamed n (unwrapInpType t).1
  | .scalar _ _ => by simp [unwrapInpType, hasAnnType, hasAnnNamed]
  | .obj _ _ _ => by simp [unwrapInpType, hasAnnType, hasAnnNamed]
  | .listW t => by
    simpa [unwrapInpType, hasAnnType] using hasAnnType_eq_named n t
  | .nonNull t => by
    simpa [unwrapInpType, hasAnnType] using hasAnnType_eq_named n t

/-- `getExtensions` is observationally a lookup through the node's
`extensions`: the `isListType` guard only rules out nodes that have no
`extensions` anyway. -/
theorem getExtensions_eq_bind (self : InputTransformer) (node : Node) :
    getExtensions self node
      = (nodeExtensions node).bind fun exts => exts.lookup self.extensionName := by
  cases node with
  | ofArgDef d =>
    cases h : d.extensions <;>
      simp [getExtensions, hasExtensions, isListTypeNode, nodeExtensions, h]
  | ofArgType at' =>
    cases at' with
    | ofType t =>
      cases t <;> simp [getExtensions, hasExtensions, isListTypeNode, nodeExtensions]
    | ofField exts t =>
      simp [getExtensions, hasExtensions, isListTypeNode, nodeExtensions]
  | ofRecord defs =>
    simp [getExtensions, hasExtensions, isListTypeNode, nodeExtensions]

/-- At a non-record visit the reducer of `buildResolverMiddleware` sees no
child entries and decides purely from `getExtensions` and the wrapping. -/
theorem buildReducer_init (self : InputTransformer) (u : Unit) (node : Node)
    (ctx : NodeCtx Unit) :
    buildReducer self (.init u) node ctx
      = match getExtensions self node with
        | none => none
        | some extensions =>
          if truthy extensions then
            if ctx.wrapping.contains WrapKind.List then
              some (makeListTransform self extensions)
            else
              some (makeTransform self extensions)
          else none := by
  simp [buildReducer]

/-- At a record visit the reducer composes a non-empty child record and
falls back to the extensions decision on an empty one. -/
theorem buildReducer_record (self : InputTransformer)
    (entries : List (String × InputTransform)) (node : Node) (ctx : NodeCtx Unit) :
    buildReducer self (.record entries) node ctx
      = if entries.length > 0 then some (composeKeyTransformers entries)
        else match getExtensions self node with
        | none => none
        | some extensions =>
          if truthy extensions then
            if ctx.wrapping.contains WrapKind.List then
              some (makeListTransform self extensions)
            else
              some (makeTransform self extensions)
          else none := by
  simp [buildReducer]

/-- How a non-record visit resolves, summarized for the annotation
bookkeeping: it is defined exactly when the node is annotated. -/
theorem buildReducer_init_isSome (self : InputTransformer) (u : Unit)
    (node : Node) (ctx : NodeCtx Unit) :
    (buildReducer self (.init u) node ctx).isSome
      = truthyOpt ((nodeExtensions node).bind fun exts =>
          exts.lookup self.extensionName) := by
  rw [buildReducer_init, ← getExtensions_eq_bind]
  cases h : getExtensions self node with
  | none => simp [truthyOpt]
  | some v =>
    by_cases hv : truthy v
    · simp only [truthyOpt, hv, if_true]
      split <;> simp
    · simp [truthyOpt, hv]

/-- The traversal under `buildReducer` discovers a defined result exactly at
annotated positions, proved for the three mutually recursive entry points at
once by strong induction on the height measure. -/
theorem reduce_isSome_aux (self : InputTransformer) (N : Nat) :
    (∀ (at' : ArgType) (ctx : NodeCtx Unit), 8 * htA at' + 3 ≤ N →
      (reduceOverArgType (buildReducer self) at' ctx).isSome
        = hasAnnArgType self.extensionName at') ∧
    (∀ (t : InpType) (ctx : NodeCtx Unit), 8 * htT t + 2 ≤ N →
      (reduceOverWrappedType (buildReducer self) t ctx).isSome
        = hasAnnNamed self.extensionName t) ∧
    (∀ (fl : FieldList) (ctx : NodeCtx Unit), 8 * htF fl + 1 ≤ N →
      (reduceOverFields (buildReducer self) ctx fl).isEmpty
        = !hasAnnFields self.extensionName fl) := by
  induction N using Nat.strong_induction_on with
  | _ N IH =>
  refine ⟨?_, ?_, ?_⟩
  · intro at' ctx hN
    rw [reduceOverArgType]
    cases hv : buildReducer self (.init ctx.initialNodeValue) (.ofArgType at')
        { ctx with wrapping := (unwrapType at').2 } with
    | some v =>
      have := buildReducer_init_isSome self ctx.initialNodeValue (.ofArgType at')
        { ctx with wrapping := (unwrapType at').2 }
      rw [hv] at this
      cases at' with
      | ofType t =>
        cases t <;>
          simp_all [nodeExtensions, hasAnnArgType, hasAnnType, truthyLookup, truthyOpt]
      | ofField exts t =>
        simp_all [nodeExtensions, hasAnnArgType, truthyLookup, truthyOpt]
    | none =>
      have hvis := buildReducer_init_isSome self ctx.initialNodeValue (.ofArgType at')
        { ctx with wrapping := (unwrapType at').2 }
      rw [hv] at hvis
      have hm : 8 * htT (unwrapType at').1 + 2 < N := by
        have := htA_unwrap_le at'
        omega
      have hrec := ((IH _ hm).2.1) (unwrapType at').1
        { ctx with wrapping := (unwrapType at').2 } (Nat.le_refl _)
      simp only [hrec]
      cases at' with
      | ofType t =>
        simp [hasAnnArgType, unwrapType, hasAnnType_eq_named]
      | ofField exts t =>
        have hexts : truthyLookup self.extensionName exts = false := by
          simpa [nodeExtensions, truthyLookup] using hvis.symm
        simp [hasAnnArgType, unwrapType, hasAnnType_eq_named, hexts]
  · intro t ctx hN
    cases t with
    | scalar name exts =>
      simp only [reduceOverWrappedType]
      have hv := buildReducer_init_isSome self ctx.initialNodeValue
        (.ofArgType (.ofType (.scalar name exts))) ctx
      cases hb : buildReducer self (.init ctx.initialNodeValue)
          (.ofArgType (.ofType (.scalar name exts))) ctx with
      | some v =>
        rw [hb] at hv
        simp_all [nodeExtensions, hasAnnNamed, truthyLookup]
      | none =>
        rw [hb] at hv
        simp_all [nodeExtensions, hasAnnNamed, truthyLookup]
    | obj name exts fl =>
      simp only [reduceOverWrappedType]
      have hv := buildReducer_init_isSome self ctx.initialNodeValue
        (.ofArgType (.ofType (.obj name exts fl))) ctx
      cases hb : buildReducer self (.init ctx.initialNodeValue)
          (.ofArgType (.ofType (.obj name exts fl))) ctx with
      | some v =>
        rw [hb] at hv
        simp_all [nodeExtensions, hasAnnNamed, truthyLookup]
      | none =>
        rw [hb] at hv
        have hexts : truthyLookup self.extensionName exts = false := by
          simpa [nodeExtensions, truthyLookup] using hv.symm
        have hm : 8 * htF fl + 1 < N := by
          simp only [htT] at hN; omega
        have hrecf := ((IH _ hm).2.2) fl ctx (Nat.le_refl _)
        simp only [reduceOverObjectType, buildReducer_record]
        cases hcv : reduceOverFields (buildReducer self) ctx fl with
        | nil =>
          rw [hcv] at hrecf
          have hfl : hasAnnFields self.extensionName fl = false := by
            cases h' : hasAnnFields self.extensionName fl <;> simp_all
          rw [getExtensions_eq_bind]
          simp only [nodeExtensions]
          cases hl : exts.lookup self.extensionName with
          | none => simp [hasAnnNamed, hfl, truthyLookup, truthyOpt, hl]
          | some w =>
            have hw : truthy w = false := by
              simpa [truthyLookup, truthyOpt, hl] using hexts
            simp [hasAnnNamed, hfl, truthyLookup, truthyOpt, hl, hw]
        | cons hd tl =>
          rw [hcv] at hrecf
          have hfl : hasAnnFields self.extensionName fl = true := by
            cases h' : hasAnnFields self.extensionName fl <;> simp_all
          simp [hasAnnNamed, hfl]
    | listW t' =>
      simp only [reduceOverWrappedType]
      have hv := buildReducer_init_isSome self ctx.initialNodeValue
        (.ofArgType (.ofType (.listW t'))) ctx
      cases hb : buildReducer self (.init ctx.initialNodeValue)
          (.ofArgType (.ofType (.listW t'))) ctx with
      | some v =>
        rw [hb] at hv
        simp [nodeExtensions, truthyOpt] at hv
      | none => simp [hasAnnNamed]
    | nonNull t' =>
      simp only [reduceOverWrappedType]
      have hv := buildReducer_init_isSome self ctx.initialNodeValue
        (.ofArgType (.ofType (.nonNull t'))) ctx
      cases hb : buildReducer self (.init ctx.initialNodeValue)
          (.ofArgType (.ofType (.nonNull t'))) ctx with
      | some v =>
        rw [hb] at hv
        simp [nodeExtensions, truthyOpt] at hv
      | none => simp [hasAnnNamed]
  · intro fl ctx hN
    cases fl with
    | nil => simp [reduceOverFields, hasAnnFields]
    | cons key exts t rest =>
      rw [reduceOverFields]
      have hm : 8 * htA (.ofField exts t) + 3 < N := by
        simp only [htA, htF] at hN ⊢
        have := Nat.le_max_left (htT t) (htF rest)
        omega
      have hrec := ((IH _ hm).1) (.ofField exts t)
        { key := some key, wrapping := [], initialNodeValue := ctx.initialNodeValue }
        (Nat.le_refl _)
      have hmr : 8 * htF rest + 1 < N := by
        simp only [htF] at hN
        have := Nat.le_max_right (htT t) (htF rest)
        omega
      have hrest := ((IH _ hmr).2.2) rest ctx (Nat.le_refl _)
      cases hv : reduceOverArgType (buildReducer self) (.ofField exts t)
          { key := some key, wrapping := [], initialNodeValue := ctx.initialNodeValue } with
      | some v =>
        rw [hv] at hrec
        simp only [Option.isSome_some] at hrec
        have h2 : (truthyLookup self.extensionName exts
            || hasAnnType self.extensionName t) = true := by
          simpa [hasAnnArgType] using hrec.symm
        simp [hasAnnFields, h2]
      | none =>
        rw [hv] at hrec
        simp only [Option.isSome_none] at hrec
        have : truthyLookup self.extensionName exts = false ∧
            hasAnnType self.extensionName t = false := by
          cases h1 : truthyLookup self.extensionName exts <;>
            cases h2 : hasAnnType self.extensionName t <;>
              simp_all [hasAnnArgType]
        simp [hasAnnFields, this.1, this.2, hrest]

/-- Reducing one argument definition under `buildResolverMiddleware`'s
reducer is defined exactly when the definition is annotated somewhere. -/
theorem reduceOverArgDef_isSome (self : InputTransformer) (d : ArgDef)
    (ctx : NodeCtx Unit) :
    (reduceOverArgDef (buildReducer self) d ctx).isSome
      = hasAnnArgDef self.extensionName d := by
  rw [reduceOverArgDef]
  have hv := buildReducer_init_isSome self ctx.initialNodeValue (.ofArgDef d) ctx
  cases hb : buildReducer self (.init ctx.initialNodeValue) (.ofArgDef d) ctx with
  | some v =>
    rw [hb] at hv
    simp only [nodeExtensions, Option.isSome_some] at hv
    simp [hasAnnArgDef, ← hv]
  | none =>
    rw [hb] at hv
    simp only [nodeExtensions, Option.isSome_none] at hv
    have := ((reduce_isSome_aux self (8 * htA (.ofType d.type) + 3)).1)
      (.ofType d.type) ctx (Nat.le_refl _)
    simp [this, hasAnnArgDef, hasAnnArgType, ← hv]

/-- The child-entry record the root visit receives is empty exactly when no
argument definition is annotated. -/
theorem childEntries_isEmpty (self : InputTransformer)
    (l : List (String × ArgDef)) :
    (l.filterMap fun kd =>
        (reduceOverArgDef (buildReducer self) kd.2
          { key := some kd.1, wrapping := [], initialNodeValue := () }).map
          fun v => (kd.1, v)).isEmpty
      = !hasAnnArgDefs self.extensionName l := by
  induction l with
  | nil => simp [hasAnnArgDefs]
  | cons hd tl ih =>
    rw [List.filterMap_cons]
    have hs := reduceOverArgDef_isSome self hd.2
      { key := some hd.1, wrapping := [], initialNodeValue := () }
    cases hr : reduceOverArgDef (buildReducer self) hd.2
        { key := some hd.1, wrapping := [], initialNodeValue := () } with
    | some v =>
      rw [hr] at hs
      simp only [Option.isSome_some] at hs
      simp [hasAnnArgDefs, ← hs]
    | none =>
      rw [hr] at hs
      simp only [Option.isSome_none] at hs
      simp only [Option.map_none', hasAnnArgDefs, List.any_cons, ← hs,
        Bool.false_or]
      exact ih

/-- The compiled middleware is defined exactly when some position of the
argument-definition tree is annotated under this transformer's key. -/
theorem buildResolverMiddleware_isSome (self : InputTransformer)
    (argDefs : List (String × ArgDef)) :
    (buildResolverMiddleware self argDefs).isSome
      = hasAnnArgDefs self.extensionName argDefs := by
  rw [buildResolverMiddleware]
  simp only [reduceOverArgDefs]
  rw [buildReducer_record, getExtensions_eq_bind]
  simp only [nodeExtensions, Option.none_bind]
  have he := childEntries_isEmpty self argDefs
  cases hfm : argDefs.filterMap fun kd =>
      (reduceOverArgDef (buildReducer self) kd.2
        { key := some kd.1, wrapping := [], initialNodeValue := () }).map
        fun v => (kd.1, v) with
  | nil =>
    rw [hfm] at he
    simp only [List.isEmpty_nil] at he
    have : hasAnnArgDefs self.extensionName argDefs = false := by
      cases h' : hasAnnArgDefs self.extensionName argDefs <;> simp_all
    simp [this]
  | cons hd tl =>
    rw [hfm] at he
    simp only [List.isEmpty_cons] at he
    have : hasAnnArgDefs self.extensionName argDefs = true := by
      cases h' : hasAnnArgDefs self.extensionName argDefs <;> simp_all
    simp [this]


/-- Agreeing types unwrap to the same wrapper-kind sequence and agreeing
terminal types. -/
theorem agree_unwrap (n : String) : (t₁ t₂ : InpType) → AgreeType n t₁ t₂ →
    (unwrapInpType t₁).2 = (unwrapInpType t₂).2 ∧
      AgreeType n (unwrapInpType t₁).1 (unwrapInpType t₂).1
  | _, _, .scalar s e₁ e₂ he => by
    exact ⟨rfl, by simpa [unwrapInpType] using AgreeType.scalar s e₁ e₂ he⟩
  | _, _, .obj s e₁ e₂ f₁ f₂ he hf => by
    exact ⟨rfl, by simpa [unwrapInpType] using AgreeType.obj s e₁ e₂ f₁ f₂ he hf⟩
  | _, _, .listW t₁ t₂ h => by
    have ih := agree_unwrap n t₁ t₂ h
    exact ⟨by simp [unwrapInpType, ih.1], by simpa [unwrapInpType] using ih.2⟩
  | _, _, .nonNull t₁ t₂ h => by
    have ih := agree_unwrap n t₁ t₂ h
    exact ⟨by simp [unwrapInpType, ih.1], by simpa [unwrapInpType] using ih.2⟩

/-- Agreeing type nodes show the same extensions lookup to the reducer. -/
theorem agreeType_bind_eq (n : String) {t₁ t₂ : InpType}
    (h : AgreeType n t₁ t₂) :
    ((nodeExtensions (.ofArgType (.ofType t₁))).bind fun e => e.lookup n)
      = (nodeExtensions (.ofArgType (.ofType t₂))).bind fun e => e.lookup n := by
  cases h <;> simp_all [nodeExtensions]

/-- Two visits whose nodes show the same extensions lookup resolve
identically. -/
theorem buildReducer_init_congr (self : InputTransformer) (u₁ u₂ : Unit)
    (node₁ node₂ : Node) (ctx : NodeCtx Unit)
    (h : ((nodeExtensions node₁).bind fun e => e.lookup self.extensionName)
      = (nodeExtensions node₂).bind fun e => e.lookup self.extensionName) :
    buildReducer self (.init u₁) node₁ ctx
      = buildReducer self (.init u₂) node₂ ctx := by
  rw [buildReducer_init, buildReducer_init, getExtensions_eq_bind,
    getExtensions_eq_bind, h]

/-- The traversal under `buildResolverMiddleware`'s reducer cannot tell two
trees apart that agree at the transformer's own annotation key, proved for
the three mutually recursive entry points by strong induction on the height
measure. -/
theorem reduce_congr_aux (self : InputTransformer) (N : Nat) :
    (∀ (at₁ at₂ : ArgType) (ctx : NodeCtx Unit), 8 * htA at₁ + 3 ≤ N →
      AgreeArgType self.extensionName at₁ at₂ →
      reduceOverArgType (buildReducer self) at₁ ctx
        = reduceOverArgType (buildReducer self) at₂ ctx) ∧
    (∀ (t₁ t₂ : InpType) (ctx : NodeCtx Unit), 8 * htT t₁ + 2 ≤ N →
      AgreeType self.extensionName t₁ t₂ →
      reduceOverWrappedType (buildReducer self) t₁ ctx
        = reduceOverWrappedType (buildReducer self) t₂ ctx) ∧
    (∀ (fl₁ fl₂ : FieldList) (ctx : NodeCtx Unit), 8 * htF fl₁ + 1 ≤ N →
      AgreeFields self.extensionName fl₁ fl₂ →
      reduceOverFields (buildReducer self) ctx fl₁
        = reduceOverFields (buildReducer self) ctx fl₂) := by
  induction N using Nat.strong_induction_on with
  | _ N IH =>
  refine ⟨?_, ?_, ?_⟩
  · intro at₁ at₂ ctx hN hag
    have hwrap : (unwrapType at₁).2 = (unwrapType at₂).2 ∧
        AgreeType self.extensionName (unwrapType at₁).1 (unwrapType at₂).1 := by
      cases at₁ <;> cases at₂ <;> simp only [AgreeArgType] at hag
      case ofType.ofType t₁ t₂ => exact agree_unwrap _ t₁ t₂ hag
      case ofField.ofField e₁ t₁ e₂ t₂ => exact agree_unwrap _ t₁ t₂ hag.2
    have hnode : ((nodeExtensions (.ofArgType at₁)).bind fun e =>
          e.lookup self.extensionName)
        = (nodeExtensions (.ofArgType at₂)).bind fun e =>
          e.lookup self.extensionName := by
      cases at₁ <;> cases at₂ <;> simp only [AgreeArgType] at hag
      case ofType.ofType t₁ t₂ => exact agreeType_bind_eq _ hag
      case ofField.ofField e₁ t₁ e₂ t₂ => simp [nodeExtensions, hag.1]
    rw [reduceOverArgType, reduceOverArgType]
    have hvis := buildReducer_init_congr self ctx.initialNodeValue
      ctx.initialNodeValue (.ofArgType at₁) (.ofArgType at₂)
      { ctx with wrapping := (unwrapType at₁).2 } hnode
    rw [← hwrap.1, ← hvis]
    cases hb : buildReducer self (.init ctx.initialNodeValue) (.ofArgType at₁)
        { ctx with wrapping := (unwrapType at₁).2 } with
    | some v => rfl
    | none =>
      have hm : 8 * htT (unwrapType at₁).1 + 2 < N := by
        have := htA_unwrap_le at₁
        omega
      exact ((IH _ hm).2.1) (unwrapType at₁).1 (unwrapType at₂).1
        { ctx with wrapping := (unwrapType at₁).2 } (Nat.le_refl _) hwrap.2
  · intro t₁ t₂ ctx hN hag
    cases hag with
    | scalar s e₁ e₂ he =>
      simp only [reduceOverWrappedType]
      have hvis := buildReducer_init_congr self ctx.initialNodeValue
        ctx.initialNodeValue (.ofArgType (.ofType (.scalar s e₁)))
        (.ofArgType (.ofType (.scalar s e₂))) ctx
        (by simp [nodeExtensions, he])
      rw [← hvis]
    | obj s e₁ e₂ f₁ f₂ he hf =>
      simp only [reduceOverWrappedType]
      have hvis := buildReducer_init_congr self ctx.initialNodeValue
        ctx.initialNodeValue (.ofArgType (.ofType (.obj s e₁ f₁)))
        (.ofArgType (.ofType (.obj s e₂ f₂))) ctx
        (by simp [nodeExtensions, he])
      rw [← hvis]
      cases hb : buildReducer self (.init ctx.initialNodeValue)
          (.ofArgType (.ofType (.obj s e₁ f₁))) ctx with
      | some v => rfl
      | none =>
        simp only
        simp only [reduceOverObjectType]
        have hm : 8 * htF f₁ + 1 < N := by
          simp only [htT] at hN; omega
        have hfe := ((IH _ hm).2.2) f₁ f₂ ctx (Nat.le_refl _) hf
        rw [hfe, buildReducer_record, buildReducer_record,
          getExtensions_eq_bind, getExtensions_eq_bind]
        simp [nodeExtensions, he]
    | listW t₁ t₂ h =>
      simp only [reduceOverWrappedType]
      have hvis := buildReducer_init_congr self ctx.initialNodeValue
        ctx.initialNodeValue (.ofArgType (.ofType (.listW t₁)))
        (.ofArgType (.ofType (.listW t₂))) ctx
        (by simp [nodeExtensions])
      rw [← hvis]
    | nonNull t₁ t₂ h =>
      simp only [reduceOverWrappedType]
      have hvis := buildReducer_init_congr self ctx.initialNodeValue
        ctx.initialNodeValue (.ofArgType (.ofType (.nonNull t₁)))
        (.ofArgType (.ofType (.nonNull t₂))) ctx
        (by simp [nodeExtensions])
      rw [← hvis]
  · intro fl₁ fl₂ ctx hN hag
    cases hag with
    | nil => rfl
    | cons k e₁ e₂ t₁ t₂ r₁ r₂ he ht hr =>
      rw [reduceOverFields, reduceOverFields]
      have hm : 8 * htA (.ofField e₁ t₁) + 3 < N := by
        simp only [htA, htF] at hN ⊢
        have := Nat.le_max_left (htT t₁) (htF r₁)
        omega
      have hhd := ((IH _ hm).1) (.ofField e₁ t₁) (.ofField e₂ t₂)
        { key := some k, wrapping := [], initialNodeValue := ctx.initialNodeValue }
        (Nat.le_refl _) ⟨he, ht⟩
      have hmr : 8 * htF r₁ + 1 < N := by
        simp only [htF] at hN
        have := Nat.le_max_right (htT t₁) (htF r₁)
        omega
      have hrest := ((IH _ hmr).2.2) r₁ r₂ ctx (Nat.le_refl _) hr
      rw [← hhd, hrest]

/-- Reducing one argument definition cannot tell two agreeing definitions
apart. -/
theorem reduceOverArgDef_congr (self : InputTransformer) {d₁ d₂ : ArgDef}
    (ctx : NodeCtx Unit) (h : AgreeArgDef self.extensionName d₁ d₂) :
    reduceOverArgDef (buildReducer self) d₁ ctx
      = reduceOverArgDef (buildReducer self) d₂ ctx := by
  rw [reduceOverArgDef, reduceOverArgDef]
  have hvis := buildReducer_init_congr self ctx.initialNodeValue
    ctx.initialNodeValue (.ofArgDef d₁) (.ofArgDef d₂) ctx
    (by simpa [nodeExtensions] using h.1)
  rw [← hvis]
  cases hb : buildReducer self (.init ctx.initialNodeValue) (.ofArgDef d₁) ctx with
  | some v => rfl
  | none =>
    exact ((reduce_congr_aux self (8 * htA (.ofType d₁.type) + 3)).1)
      (.ofType d₁.type) (.ofType d₂.type) ctx (Nat.le_refl _) h.2

/-! ### Lemmas about bags: `lookup` and `setKey` -/

theorem any_key_of_lookup_some {fs : List (String × Value)} {k : String}
    {v : Value} (h : fs.lookup k = some v) :
    (fs.any fun p => k == p.1) = true := by
  induction fs with
  | nil => simp [List.lookup] at h
  | cons hd tl ih =>
    rw [List.lookup] at h
    cases hbe : (k == hd.1) with
    | true => simp [List.any_cons, hbe]
    | false =>
      rw [hbe] at h
      simp [List.any_cons, ih h]

theorem lookup_map_set_self {fs : List (String × Value)} {k : String}
    {v : Value} (h : (fs.any fun p => k == p.1) = true) :
    (fs.map fun p => if k == p.1 then (k, v) else p).lookup k = some v := by
  induction fs with
  | nil => simp at h
  | cons hd tl ih =>
    rw [List.map_cons]
    cases hbe : (k == hd.1) with
    | true =>
      rw [if_pos rfl, List.lookup]
      simp
    | false =>
      rw [if_neg (by simp), List.lookup, hbe]
      simp only [List.any_cons, hbe, Bool.false_or] at h
      simpa using ih h

theorem lookup_append_single_self {fs : List (String × Value)} {k : String}
    {v : Value} (h : (fs.any fun p => k == p.1) = false) :
    (fs ++ [(k, v)]).lookup k = some v := by
  induction fs with
  | nil => simp [List.lookup]
  | cons hd tl ih =>
    simp only [List.any_cons, Bool.or_eq_false_iff] at h
    rw [List.cons_append, List.lookup, h.1]
    simpa using ih h.2

/-- Writing a key makes it present with that value. -/
theorem lookup_setKey_self (fs : List (String × Value)) (k : String)
    (v : Value) : (setKey fs k v).lookup k = some v := by
  rw [setKey]
  cases hany : (fs.any fun p => k == p.1) with
  | true => simpa [hany] using lookup_map_set_self (v := v) hany
  | false => simpa [hany] using lookup_append_single_self (v := v) hany

theorem lookup_map_set_ne {fs : List (String × Value)} {k j : String}
    {v : Value} (hne : j ≠ k) :
    (fs.map fun p => if k == p.1 then (k, v) else p).lookup j = fs.lookup j := by
  have hjk : (j == k) = false := by
    cases h' : (j == k)
    · rfl
    · exact absurd (beq_iff_eq.mp h') hne
  induction fs with
  | nil => simp
  | cons hd tl ih =>
    rw [List.map_cons]
    cases hbe : (k == hd.1) with
    | true =>
      have hk : k = hd.1 := beq_iff_eq.mp hbe
      rw [if_pos rfl, List.lookup, List.lookup, hjk, ← hk, hjk]
      exact ih
    | false =>
      rw [if_neg (by simp), List.lookup, List.lookup]
      cases hj : (j == hd.1) with
      | true => rfl
      | false => exact ih

theorem lookup_append_single_ne {fs : List (String × Value)} {k j : String}
    {v : Value} (hne : j ≠ k) :
    (fs ++ [(k, v)]).lookup j = fs.lookup j := by
  have hjk : (j == k) = false := by
    cases h' : (j == k)
    · rfl
    · exact absurd (beq_iff_eq.mp h') hne
  induction fs with
  | nil => simp [List.lookup, hjk]
  | cons hd tl ih =>
    rw [List.cons_append, List.lookup, List.lookup]
    cases hj : (j == hd.1) with
    | true => rfl
    | false => exact ih

/-- Writing one key leaves every other key's lookup unchanged. -/
theorem lookup_setKey_ne (fs : List (String × Value)) {k j : String}
    (v : Value) (hne : j ≠ k) : (setKey fs k v).lookup j = fs.lookup j := by
  rw [setKey]
  cases hany : (fs.any fun p => k == p.1) with
  | true => simpa [hany] using lookup_map_set_ne (v := v) hne
  | false => simpa [hany] using lookup_append_single_ne (v := v) hne

/-! ### The compose fold on object bags -/

/-- One compose step on an object bag: read the key (or `undefined`), run
the transform, write the result back. -/
theorem composeStep_obj (fs : List (String × Value))
    (kt : String × InputTransform) :
    composeStep (.obj fs) kt
      = (kt.2 (match fs.lookup kt.1 with | some v => v | none => .undefined)).map
          fun v => .obj (setKey fs kt.1 v) := by
  rw [composeStep]
  cases hl : fs.lookup kt.1 with
  | some v =>
    cases ht : kt.2 v <;>
      simp [jsIndex, hl, ht, jsSpreadSet, Except.map, bind, Except.bind,
        pure, Except.pure]
  | none =>
    cases ht : kt.2 .undefined <;>
      simp [jsIndex, hl, ht, jsSpreadSet, Except.map, bind, Except.bind,
        pure, Except.pure]

/-- Folding compose steps whose keys all avoid `k` keeps the carry an
object bag and leaves the entry at `k` untouched. -/
theorem compose_fold_preserves (k : String) :
    ∀ (kts : List (String × InputTransform)) (fs : List (String × Value))
      (out : Value), (∀ p ∈ kts, p.1 ≠ k) →
      List.foldlM composeStep (Value.obj fs) kts = .ok out →
      ∃ gs, out = Value.obj gs ∧ gs.lookup k = fs.lookup k := by
  intro kts
  induction kts with
  | nil =>
    intro fs out _ h
    refine ⟨fs, ?_, rfl⟩
    simpa [List.foldlM, pure, Except.pure] using h.symm
  | cons hd tl ih =>
    intro fs out hk h
    rw [List.foldlM_cons, composeStep_obj] at h
    cases ht : hd.2 (match fs.lookup hd.1 with | some v => v | none => .undefined) with
    | error e =>
      rw [ht] at h
      simp [Except.map, bind, Except.bind] at h
    | ok v =>
      rw [ht] at h
      simp only [Except.map, bind, Except.bind] at h
      obtain ⟨gs, hout, hlk⟩ := ih (setKey fs hd.1 v) out
        (fun p hp => hk p (List.mem_cons_of_mem hd hp)) h
      refine ⟨gs, hout, ?_⟩
      rw [hlk]
      exact lookup_setKey_ne fs v fun he => hk hd (List.mem_cons_self hd tl) he.symm


/-! ### Claim theorems -/

/-- C1: for a field-definition tree whose single top-level scalar field `x`
is annotated (for this transformer's key) with configuration `c`, compiling
with `buildResolverMiddleware` and applying the compiled function to a bag
containing `x ↦ v` yields a bag in which `x` is mapped to
`transform v c` and every other key of the bag is passed through
unchanged. -/
theorem compile_single_scalar_field (self : InputTransformer)
    (x scalarName : String) (scalarExts aexts : Exts) (c v r : Value)
    (fs : List (String × Value))
    (hc : aexts.lookup self.extensionName = some c) (htc : truthy c = true)
    (hv : fs.lookup x = some v) (hr : self.transform v c = .ok r) :
    (buildResolverMiddleware self
        [(x, ⟨.scalar scalarName scalarExts, some aexts⟩)]).map
        (fun f => f (.obj fs))
      = some (.ok (.obj (fs.map fun p => if x == p.1 then (x, r) else p))) := by
  have hbuild : buildResolverMiddleware self
      [(x, ⟨.scalar scalarName scalarExts, some aexts⟩)]
      = some (composeKeyTransformers [(x, makeTransform self c)]) := by
    rw [buildResolverMiddleware]
    simp only [reduceOverArgDefs, List.filterMap_cons, List.filterMap_nil]
    rw [reduceOverArgDef, buildReducer_init, getExtensions_eq_bind]
    simp only [nodeExtensions, Option.some_bind, hc, htc, if_true]
    simp [buildReducer_record]
  rw [hbuild]
  simp only [Option.map_some']
  rw [composeKeyTransformers]
  rw [List.foldlM_cons, composeStep_obj]
  simp only [hv]
  rw [makeTransform]
  simp only [hr, Except.map, bind, Except.bind, List.foldlM_nil]
  rw [setKey, if_pos (any_key_of_lookup_some hv)]
  rfl

/-- Closed instance of C1, matching the spec's example: config
`{ to: "X" }` on field `b`, input `{ a: "keep", b: "old" }`, output
`{ a: "keep", b: "X" }`. -/
theorem compile_single_scalar_field_witness :
    (buildResolverMiddleware replaceWithTransformer
        [("b", ⟨.scalar "String" [],
          some [("replaceWith", .obj [("to", .str "X")])]⟩)]).map
        (fun f => f (.obj [("a", .str "keep"), ("b", .str "old")]))
      = some (.ok (.obj [("a", .str "keep"), ("b", .str "X")])) := by
  have h := compile_single_scalar_field replaceWithTransformer "b" "String" []
    [("replaceWith", .obj [("to", .str "X")])] (.obj [("to", .str "X")])
    (.str "old") (.str "X") [("a", .str "keep"), ("b", .str "old")]
    (by simp [replaceWithTransformer, List.lookup])
    (by rfl)
    (by simp [List.lookup])
    (by rfl)
  simpa [List.lookup] using h

/-- C10: a compiled function whose closed-over key transformers include a
key `k` with a (non-list) scalar transform and configuration `c`, applied
to an input bag that does not contain `k`, produces an output bag that
does contain `k`, mapped to `transform undefined c`: the missing annotated
key is materialized, not passed through absent. -/
theorem absent_key_materialized (self : InputTransformer)
    (pre post : List (String × InputTransform)) (k : String) (c : Value)
    (fs : List (String × Value)) (out : Value)
    (hpre : ∀ p ∈ pre, p.1 ≠ k) (hpost : ∀ p ∈ post, p.1 ≠ k)
    (habs : fs.lookup k = none)
    (hout : composeKeyTransformers (pre ++ (k, makeTransform self c) :: post)
      (.obj fs) = .ok out) :
    ∃ r gs, self.transform .undefined c = .ok r ∧ out = .obj gs ∧
      gs.lookup k = some r := by
  rw [composeKeyTransformers, List.foldlM_append] at hout
  cases hp : List.foldlM composeStep (Value.obj fs) pre with
  | error e =>
    rw [hp] at hout
    simp [bind, Except.bind] at hout
  | ok carry =>
    rw [hp] at hout
    simp only [bind, Except.bind] at hout
    obtain ⟨gs₁, hcarry, hlk⟩ := compose_fold_preserves k pre fs carry hpre hp
    subst hcarry
    rw [List.foldlM_cons, composeStep_obj] at hout
    rw [hlk, habs] at hout
    simp only [makeTransform] at hout
    cases hr : self.transform .undefined c with
    | error e =>
      rw [hr] at hout
      simp [Except.map, bind, Except.bind] at hout
    | ok r =>
      rw [hr] at hout
      simp only [Except.map, bind, Except.bind] at hout
      obtain ⟨gs₂, hout₂, hlk₂⟩ :=
        compose_fold_preserves k post (setKey gs₁ k r) out hpost hout
      exact ⟨r, gs₂, rfl, hout₂, by rw [hlk₂, lookup_setKey_self]⟩

/-- Closed instance of C10: a compiled transformer for the absent key `k`
materializes `k` in the output with the transform applied to
`undefined`. -/
theorem absent_key_materialized_witness :
    ∃ r gs, pairTransformer.transform .undefined (.obj []) = .ok r ∧
      Value.obj [("k", .arr [.undefined, .obj []])] = .obj gs ∧
      gs.lookup "k" = some r :=
  absent_key_materialized pairTransformer [] [] "k" (.obj []) []
    (.obj [("k", .arr [.undefined, .obj []])])
    (by simp) (by simp) (by simp [List.lookup]) (by rfl)

/-- C6: if the caller-supplied transform for one key throws while the
compiled function processes that key (earlier keys having succeeded), the
exception propagates synchronously out of `composeKeyTransformers`
unmodified, whatever the keys not yet processed are: none of them is
applied and no output bag is produced. -/
theorem transform_throw_propagates
    (pre : List (String × InputTransform)) (k : String) (t : InputTransform)
    (args carry cur : Value) (e : String)
    (hpre : List.foldlM composeStep args pre = .ok carry)
    (hcur : jsIndex carry k = .ok cur) (ht : t cur = .error e) :
    ∀ post : List (String × InputTransform),
      composeKeyTransformers (pre ++ (k, t) :: post) args = .error e := by
  intro post
  rw [composeKeyTransformers, List.foldlM_append, hpre]
  simp only [bind, Except.bind]
  rw [List.foldlM_cons, composeStep]
  simp [hcur, ht, bind, Except.bind]

/-- Closed instance of C6: the second transform throws `boom`; the third is
never applied and the whole compiled call reports `boom`. -/
theorem transform_throw_propagates_witness :
    composeKeyTransformers
        ([("a", fun _ => .ok (.num 9))] ++ ("b", fun _ => .error "boom")
          :: [("c", fun _ => .ok (.num 9))])
        (.obj [("a", .num 1), ("b", .num 2)]) = .error "boom" :=
  transform_throw_propagates [("a", fun _ => .ok (.num 9))] "b"
    (fun _ => .error "boom") (.obj [("a", .num 1), ("b", .num 2)])
    (.obj [("a", .num 9), ("b", .num 2)]) (.num 2) "boom"
    (by rfl) (by rfl) (by rfl) [("c", fun _ => .ok (.num 9))]

/-- C5: for a field-definition tree with no position annotated under this
transformer's key (a stored configuration counts when it is truthy — every
extracted configuration object is), `buildResolverMiddleware` returns the
`undefined` sentinel; as soon as at least one position is annotated it
returns a single compiled function. -/
theorem compile_none_iff_no_annotation (self : InputTransformer)
    (argDefs : List (String × ArgDef)) :
    (buildResolverMiddleware self argDefs = none ↔
      hasAnnArgDefs self.extensionName argDefs = false) ∧
    ((∃ f, buildResolverMiddleware self argDefs = some f) ↔
      hasAnnArgDefs self.extensionName argDefs = true) := by
  have h := buildResolverMiddleware_isSome self argDefs
  cases hb : buildResolverMiddleware self argDefs with
  | none =>
    rw [hb] at h
    simp only [Option.isSome_none] at h
    simp [← h]
  | some f =>
    rw [hb] at h
    simp only [Option.isSome_some] at h
    simp [← h]

/-- C9: a compiled function depends only on annotations stored under its
own transformer's annotation key: compiling over two trees that agree at
that key — while annotations under every other key are added, removed or
altered freely — produces identical results, so instances with distinct
keys over the same schema tree cannot interfere. -/
theorem compile_depends_only_on_own_key (self : InputTransformer)
    (l₁ l₂ : List (String × ArgDef))
    (h : AgreeArgDefs self.extensionName l₁ l₂) :
    buildResolverMiddleware self l₁ = buildResolverMiddleware self l₂ := by
  rw [buildResolverMiddleware, buildResolverMiddleware]
  simp only [reduceOverArgDefs]
  have hents : (l₁.filterMap fun kd =>
      (reduceOverArgDef (buildReducer self) kd.2
        { key := some kd.1, wrapping := [], initialNodeValue := () }).map
        fun v => (kd.1, v))
      = l₂.filterMap fun kd =>
      (reduceOverArgDef (buildReducer self) kd.2
        { key := some kd.1, wrapping := [], initialNodeValue := () }).map
        fun v => (kd.1, v) := by
    induction h with
    | nil => rfl
    | cons h₁ h₂ ih =>
      rw [List.filterMap_cons, List.filterMap_cons, ih]
      obtain ⟨hk, hdef⟩ := h₁
      rw [hk, reduceOverArgDef_congr self _ hdef]
  rw [hents, buildReducer_record, buildReducer_record,
    getExtensions_eq_bind, getExtensions_eq_bind]
  simp [nodeExtensions]

/-- Closed instance of C9: removing a second transformer's annotation
(key `beta`) from a tree leaves the `alpha` transformer's compiled
function unchanged. -/
theorem compile_depends_only_on_own_key_witness :
    buildResolverMiddleware identityTransformer
        [("x", ⟨.scalar "S" [], some [("alpha", .obj []), ("beta", .num 1)]⟩)]
      = buildResolverMiddleware identityTransformer
        [("x", ⟨.scalar "S" [], some [("alpha", .obj [])]⟩)] :=
  compile_depends_only_on_own_key identityTransformer _ _
    (by
      refine List.Forall₂.cons ⟨rfl, ?_, ?_⟩ List.Forall₂.nil
      · simp [identityTransformer, List.lookup]
      · exact AgreeType.scalar "S" [] [] rfl)

/-- C2 counterexample: with the caller-chosen empty sentinel `0` as
`initialNodeValue`, a visitor that answers exactly that sentinel at the
field's definition node halts descent there — the fold returns the
sentinel value — while the identical visitor answering `undefined` instead
descends and returns the deeper type node's value `7`.  Were a result
equal to the caller-chosen sentinel the (only) continue signal, as the
claim states, both folds would descend and agree. -/
theorem reducer_sentinel_halts_cex :
    reduceOverArgDefs haltingVisitor [("x", ⟨.scalar "S" [], none⟩)] (.num 0)
        = some (.num 0) ∧
    reduceOverArgDefs descendingVisitor [("x", ⟨.scalar "S" [], none⟩)] (.num 0)
        = some (.num 7) ∧
    haltingVisitor (.init (.num 0)) (.ofArgDef ⟨.scalar "S" [], none⟩)
        { key := some "x", wrapping := [], initialNodeValue := .num 0 }
        = some (.num 0) ∧
    (some (Value.num 0) : Option Value) ≠ some (.num 7) := by
  refine ⟨?_, ?_, rfl, by simp⟩
  · simp [reduceOverArgDefs, reduceOverArgDef, haltingVisitor]
  · simp [reduceOverArgDefs, reduceOverArgDef, reduceOverArgType,
      descendingVisitor]

/-- C2 amended: the walk's continue signal is exactly the JS `undefined`
result, independent of the caller-chosen `initialNodeValue`: at an
argument-definition node any defined visitor result — including one equal
to the `initialNodeValue` sentinel — halts descent and becomes the node's
result, and only an `undefined` result makes the walk continue into the
node's type. -/
theorem reducer_continue_iff_undefined {ν τ : Type} (reducer : Reducer ν τ)
    (ctx : NodeCtx ν) :
    (∀ (d : ArgDef) (v : τ),
      reducer (.init ctx.initialNodeValue) (.ofArgDef d) ctx = some v →
      reduceOverArgDef reducer d ctx = some v) ∧
    (∀ d : ArgDef,
      reducer (.init ctx.initialNodeValue) (.ofArgDef d) ctx = none →
      reduceOverArgDef reducer d ctx
        = reduceOverArgType reducer (.ofType d.type) ctx) := by
  constructor
  · intro d v hv
    rw [reduceOverArgDef, hv]
  · intro d hv
    rw [reduceOverArgDef, hv]

/-- Closed instance of the amended C2: the visitor's sentinel answer `0`
(a defined value) is the node's final result. -/
theorem reducer_continue_iff_undefined_witness :
    reduceOverArgDef haltingVisitor ⟨.scalar "S" [], none⟩
        { key := some "x", wrapping := [], initialNodeValue := .num 0 }
      = some (.num 0) :=
  (reducer_continue_iff_undefined haltingVisitor
      { key := some "x", wrapping := [], initialNodeValue := .num 0 }).1
    ⟨.scalar "S" [], none⟩ (.num 0) rfl

/-- C3 amended: at a list-wrapped annotated position the compiled function
applies the element transform independently to every element of the input
sequence, and an empty input sequence yields an empty sequence; an absent
input sequence, however, is not passed through — the element-mapping
wrapper calls `.map` on `undefined` and throws a `TypeError` (see the
counterexample). -/
theorem list_transform_elementwise (self : InputTransformer)
    (x scalarName : String) (c : Value) (htc : truthy c = true)
    (xs ys : List Value)
    (hmap : xs.mapM (fun v => self.transform v c) = .ok ys) :
    (buildResolverMiddleware self
        [(x, ⟨.listW (.scalar scalarName [(self.extensionName, c)]),
          none⟩)]).map
        (fun f => f (.obj [(x, .arr xs)]))
      = some (.ok (.obj [(x, .arr ys)])) := by
  have hbuild : buildResolverMiddleware self
      [(x, ⟨.listW (.scalar scalarName [(self.extensionName, c)]), none⟩)]
      = some (composeKeyTransformers [(x, makeListTransform self c)]) := by
    rw [buildResolverMiddleware]
    simp only [reduceOverArgDefs, List.filterMap_cons, List.filterMap_nil]
    rw [reduceOverArgDef, buildReducer_init, getExtensions_eq_bind]
    simp only [nodeExtensions, Option.none_bind]
    rw [reduceOverArgType, buildReducer_init, getExtensions_eq_bind]
    simp only [nodeExtensions, Option.none_bind, unwrapType, unwrapInpType]
    simp only [reduceOverWrappedType]
    rw [buildReducer_init, getExtensions_eq_bind]
    simp only [nodeExtensions, Option.some_bind, List.lookup, beq_self_eq_true,
      htc, if_true]
    simp [buildReducer_record, List.contains]
  rw [hbuild]
  simp only [Option.map_some']
  rw [composeKeyTransformers, List.foldlM_cons, composeStep_obj]
  simp only [List.lookup, beq_self_eq_true]
  have hm2 : xs.mapM (makeTransform self c) = .ok ys := hmap
  have hlist : makeListTransform self c (.arr xs)
      = (xs.mapM (makeTransform self c)).map Value.arr := rfl
  rw [hlist, hm2]
  simp [Except.map, bind, Except.bind, List.foldlM_nil, setKey, pure,
    Except.pure, List.lookup]

/-- Closed instance of C3's positive half: `{ xs: [1,2,3] }` with
"multiply by 2" yields `{ xs: [2,4,6] }`. -/
theorem list_transform_elementwise_witness :
    (buildResolverMiddleware doubleTransformer
        [("xs", ⟨.listW (.scalar "Int" [("double", .obj [])]), none⟩)]).map
        (fun f => f (.obj [("xs", .arr [.num 1, .num 2, .num 3])]))
      = some (.ok (.obj [("xs", .arr [.num 2, .num 4, .num 6])])) :=
  list_transform_elementwise doubleTransformer "xs" "Int" (.obj []) rfl
    [.num 1, .num 2, .num 3] [.num 2, .num 4, .num 6] (by rfl)

/-- C3 counterexample: applying the compiled function for a list-wrapped
annotated position to a bag in which the sequence is absent does not pass
the bag through unchanged — `.map` of `undefined` throws a `TypeError`. -/
theorem list_transform_absent_input_cex :
    (buildResolverMiddleware doubleTransformer
        [("xs", ⟨.listW (.scalar "Int" [("double", .obj [])]), none⟩)]).map
        (fun f => f (.obj []))
      = some (.error "TypeError: input.map is not a function") ∧
    some (Except.error "TypeError: input.map is not a function")
      ≠ some (Except.ok (Value.obj ([] : List (String × Value)))) := by
  constructor
  · simp [buildResolverMiddleware, reduceOverArgDefs, reduceOverArgDef,
      reduceOverArgType, reduceOverWrappedType, buildReducer, getExtensions,
      hasExtensions, isListTypeNode, nodeExtensions, truthy, unwrapType,
      unwrapInpType, List.lookup, composeKeyTransformers, composeStep,
      jsIndex, jsSpreadSet, makeListTransform, doubleTransformer,
      List.foldlM, bind, Except.bind, pure, Except.pure]
  · simp

theorem unwrap_eq_self_of_nil {t : InpType} (h : (unwrapInpType t).2 = []) :
    t = (unwrapInpType t).1 := by
  cases t <;> simp_all [unwrapInpType]

theorem nodeExtensions_none_of_wrapped {t : InpType}
    (h : (unwrapInpType t).2 ≠ []) :
    nodeExtensions (.ofArgType (.ofType t)) = none := by
  cases t <;> simp_all [unwrapInpType, nodeExtensions]

/-- C4 amended: for a terminal scalar node carrying the annotation under
this transformer's key, the compiled transform is the element-mapping
wrapper exactly when the wrapper-kind sequence accumulated while unwrapping
contains the list kind anywhere — not only at its outermost position (the
counterexample shows a `NonNull`-outermost sequence still list-wraps). -/
theorem terminal_annotation_list_wrapping (self : InputTransformer)
    (x scalarName : String) (sexts : Exts) (t : InpType) (w : List WrapKind)
    (c : Value) (hu : unwrapInpType t = (.scalar scalarName sexts, w))
    (hc : sexts.lookup self.extensionName = some c) (htc : truthy c = true) :
    buildResolverMiddleware self [(x, ⟨t, none⟩)]
      = some (composeKeyTransformers
          [(x, if w.contains WrapKind.List then makeListTransform self c
            else makeTransform self c)]) := by
  cases w with
  | nil =>
    have ht : t = .scalar scalarName sexts := by
      have h2 := unwrap_eq_self_of_nil (t := t) (by rw [hu])
      rw [hu] at h2
      exact h2
    subst ht
    rw [buildResolverMiddleware]
    simp only [reduceOverArgDefs, List.filterMap_cons, List.filterMap_nil]
    rw [reduceOverArgDef, buildReducer_init, getExtensions_eq_bind]
    simp only [nodeExtensions, Option.none_bind]
    rw [reduceOverArgType, buildReducer_init, getExtensions_eq_bind]
    simp only [nodeExtensions, Option.some_bind, hc, htc, if_true]
    simp [buildReducer_record, List.contains, unwrapType, unwrapInpType]
  | cons k rest =>
    have hne : (unwrapInpType t).2 ≠ [] := by rw [hu]; simp
    rw [buildResolverMiddleware]
    simp only [reduceOverArgDefs, List.filterMap_cons, List.filterMap_nil]
    rw [reduceOverArgDef, buildReducer_init, getExtensions_eq_bind]
    simp only [nodeExtensions, Option.none_bind]
    rw [reduceOverArgType, buildReducer_init, getExtensions_eq_bind,
      nodeExtensions_none_of_wrapped hne]
    simp only [Option.none_bind, unwrapType, hu]
    simp only [reduceOverWrappedType]
    rw [buildReducer_init, getExtensions_eq_bind]
    simp only [nodeExtensions, Option.some_bind, hc, htc, if_true]
    cases hb : (k :: rest).contains WrapKind.List <;>
      simp [hb, buildReducer_record]

/-- Closed instance of the amended C4: wrapping `[List]` produces the
element-mapping transform. -/
theorem terminal_annotation_list_wrapping_witness :
    buildResolverMiddleware constSevenTransformer
        [("x", ⟨.listW (.scalar "S" [("seven", .obj [])]), none⟩)]
      = some (composeKeyTransformers
          [("x", if [WrapKind.List].contains WrapKind.List
            then makeListTransform constSevenTransformer (.obj [])
            else makeTransform constSevenTransformer (.obj []))]) :=
  terminal_annotation_list_wrapping constSevenTransformer "x" "S"
    [("seven", .obj [])] (.listW (.scalar "S" [("seven", .obj [])]))
    [WrapKind.List] (.obj []) rfl
    (by simp [constSevenTransformer, List.lookup]) rfl

/-- C4 counterexample: for the annotated terminal of
`NonNull(List(scalar))` the accumulated wrapper-kind sequence is
`[NonNull, List]` — the list kind is not at its outermost position — yet
the compiled transform is the element-mapping wrapper: it maps every
element of `[1, 2]` to `7`, where the claim's plain transform would have
produced the single value `7` for the whole array. -/
theorem list_wrapping_not_outermost_cex :
    (unwrapInpType (.nonNull (.listW (.scalar "ID" [("seven", .obj [])])))).2
        = [WrapKind.NonNull, WrapKind.List] ∧
    (buildResolverMiddleware constSevenTransformer
        [("x", ⟨.nonNull (.listW (.scalar "ID" [("seven", .obj [])])),
          none⟩)]).map
        (fun f => f (.obj [("x", .arr [.num 1, .num 2])]))
      = some (.ok (.obj [("x", .arr [.num 7, .num 7])])) ∧
    makeTransform constSevenTransformer (.obj []) (.arr [.num 1, .num 2])
        = .ok (.num 7) ∧
    Value.arr [.num 7, .num 7] ≠ Value.num 7 := by
  refine ⟨by simp [unwrapInpType], ?_, by rfl, by simp⟩
  simp [buildResolverMiddleware, reduceOverArgDefs, reduceOverArgDef,
    reduceOverArgType, reduceOverWrappedType, buildReducer, getExtensions,
    hasExtensions, isListTypeNode, nodeExtensions, truthy, unwrapType,
    unwrapInpType, List.lookup, composeKeyTransformers, composeStep,
    jsIndex, jsSpreadSet, makeListTransform, makeTransform, setKey,
    constSevenTransformer, List.foldlM, bind, Except.bind, pure, Except.pure,
    List.mapM, List.mapM.loop, Except.map]

/-- C7 counterexample: a tree containing a malformed annotation — the
invalid non-object configuration `1` stored under the key, which the
transform rejects — is not surfaced during the `buildResolverMiddleware`
call: compilation succeeds and returns a function, and the failure is
deferred to request time, where applying the compiled function reports the
configuration error. -/
theorem malformed_annotation_compile_cex :
    (∃ f, buildResolverMiddleware opaqueTransformer
        [("x", ⟨.scalar "ID" [], some [("opaque", .num 1)]⟩)] = some f) ∧
    (buildResolverMiddleware opaqueTransformer
        [("x", ⟨.scalar "ID" [], some [("opaque", .num 1)]⟩)]).map
        (fun f => f (.obj [("x", .str "v")]))
      = some (.error "invalid config") := by
  have h2 : (buildResolverMiddleware opaqueTransformer
      [("x", ⟨.scalar "ID" [], some [("opaque", .num 1)]⟩)]).map
      (fun f => f (.obj [("x", .str "v")]))
      = some (.error "invalid config") := by
    simp [buildResolverMiddleware, reduceOverArgDefs, reduceOverArgDef,
      reduceOverArgType, reduceOverWrappedType, buildReducer, getExtensions,
      hasExtensions, isListTypeNode, nodeExtensions, truthy, unwrapType,
      unwrapInpType, List.lookup, composeKeyTransformers, composeStep,
      jsIndex, jsSpreadSet, makeTransform, setKey, opaqueTransformer,
      List.foldlM, bind, Except.bind, pure, Except.pure]
  refine ⟨?_, h2⟩
  cases hb : buildResolverMiddleware opaqueTransformer
      [("x", ⟨.scalar "ID" [], some [("opaque", .num 1)]⟩)] with
  | none => rw [hb] at h2; simp at h2
  | some f => exact ⟨f, rfl⟩

/-- C7 amended: a throwing config extractor fails at schema-declaration
time, inside the argument constructor that invokes it (modelled from the
spec; the plugin file is absent from `src/`) — before any
`buildResolverMiddleware` call; `buildResolverMiddleware` itself never
invokes the extractor: its result is invariant under changing the
extractor.  A stored configuration of invalid shape is not detected at
compile time at all (see the counterexample). -/
theorem extractor_failure_at_declaration :
    (∀ (n : String) (extract : Value → Except String Value) (ty : InpType)
      (options : Value) (e : String), extract options = .error e →
      buildArgConstructor n extract ty options = .error e) ∧
    (∀ (self₁ self₂ : InputTransformer) (argDefs : List (String × ArgDef)),
      self₁.extensionName = self₂.extensionName →
      self₁.transform = self₂.transform →
      buildResolverMiddleware self₁ argDefs
        = buildResolverMiddleware self₂ argDefs) := by
  constructor
  · intro n extract ty options e he
    simp [buildArgConstructor, he, bind, Except.bind]
  · intro self₁ self₂ argDefs hn ht
    have hmk : makeTransform self₁ = makeTransform self₂ := by
      funext c input
      simp only [makeTransform, ht]
    have hmkl : makeListTransform self₁ = makeListTransform self₂ := by
      funext c input
      simp only [makeListTransform, hmk]
    have hred : buildReducer self₁ = buildReducer self₂ := by
      funext cv node ctx
      simp only [buildReducer, getExtensions_eq_bind, hn, hmk, hmkl]
    rw [buildResolverMiddleware, buildResolverMiddleware, hred]

/-- Closed instance of the amended C7: a throwing extractor fails inside
the argument constructor, and two transformers differing only in their
extractors compile identically. -/
theorem extractor_failure_at_declaration_witness :
    buildArgConstructor "opaque" (fun _ => .error "bad options")
        (.scalar "ID" []) (.obj []) = .error "bad options" ∧
    buildResolverMiddleware
        ⟨"k", fun _ => .error "extractor A", fun v _ => .ok v⟩
        [("x", ⟨.scalar "S" [], some [("k", .obj [])]⟩)]
      = buildResolverMiddleware ⟨"k", fun o => .ok o, fun v _ => .ok v⟩
        [("x", ⟨.scalar "S" [], some [("k", .obj [])]⟩)] :=
  ⟨extractor_failure_at_declaration.1 "opaque" (fun _ => .error "bad options")
      (.scalar "ID" []) (.obj []) "bad options" rfl,
    extractor_failure_at_declaration.2
      ⟨"k", fun _ => .error "extractor A", fun v _ => .ok v⟩
      ⟨"k", fun o => .ok o, fun v _ => .ok v⟩
      [("x", ⟨.scalar "S" [], some [("k", .obj [])]⟩)] rfl rfl⟩

end NexusInput
